import Mathlib

/-!
Verification of the auctionEngine bid-processing core.

Shallow embedding of the Go auction engine
(`internal/auction/domain/auction_lot.go`,
`internal/auction/application/place_bid.go`,
`internal/auction/infra/websocket/handlers.go`,
`internal/shared/websocket/hub.go`) and proofs of the specified
properties.

Modelling conventions:
* `float64` monetary amounts are modelled as `ℚ`; the live code only
  compares amounts and never performs arithmetic whose rounding could
  change a branch, and comparison of (non-NaN) floats is exact, so the
  branch structure is preserved.
* `time.Time` instants and `time.Duration` values are modelled as `Int`
  (`t.Add d ↦ t + d`, `a.After b ↦ a > b`).  The several `time.Now()`
  calls inside one method body are modelled as a single instant `now`
  passed as a parameter, and `uuid.New()` as a parameter `freshId`.
* `uuid.UUID` is modelled as `Nat`; the hub keys clients by the string
  rendering of the UUID, which is injective, so string comparison is
  modelled as `Nat` equality.
* The per-lot mutex (`al.mu`) serialises the state-mutating methods, so
  each method is modelled as a pure function from the receiver to the
  updated receiver plus the returned value, exactly following the Go
  statement order.
-/

deriving instance DecidableEq for Except

/-- State type `AuctionLotState` from `auction_lot.go` (string-valued in Go;
the four constant values are the only ones ever used). -/
inductive AuctionLotState where
  | pending
  | active
  | finished
  | cancelled
deriving DecidableEq, Repr

open AuctionLotState

/-- Domain errors from `internal/auction/domain/errors.go`. -/
inductive DomainError where
  | lotNotFound
  | lotNotActive
  | bidAmountTooLow
  | invalidAmount
  | bidIncrementTooSmall
  | lotAlreadyStartedOrFinished
  | lotAlreadyFinishedOrCancelled
deriving DecidableEq, Repr

/-- Entity `Bid` from `internal/auction/domain/bid.go`. -/
structure Bid where
  ID : Nat
  LotID : Nat
  UserID : Nat
  Amount : ℚ
  Timestamp : Int
deriving DecidableEq, Repr

/-- Constructor `NewBid` from `bid.go`. -/
def NewBid (id lotID userID : Nat) (amount : ℚ) (timestamp : Int) : Bid :=
  { ID := id, LotID := lotID, UserID := userID, Amount := amount,
    Timestamp := timestamp }

/-- Aggregate root `AuctionLot` from `auction_lot.go`.  The mutex field `mu`
is the serialisation guard and carries no data, so it is omitted. -/
structure AuctionLot where
  ID : Nat
  Title : String
  Description : String
  InitialPrice : ℚ
  CurrentPrice : ℚ
  EndTime : Int
  State : AuctionLotState
  LastBidTime : Option Int
  TimeExtension : Int
  CreatedAt : Int
  UpdatedAt : Int
  Bids : List Bid
deriving DecidableEq, Repr

/-- Constructor `NewAuctionLot` from `auction_lot.go` (note: the Go constructor
does not set `Description`, `LastBidTime`, `CreatedAt`, `UpdatedAt`;
they keep their zero values). -/
def NewAuctionLot (id : Nat) (title _description : String)
    (initialPrice : ℚ) (endTime : Int) (timeExtension : Int) : AuctionLot :=
  { ID := id, Title := title, Description := "",
    InitialPrice := initialPrice, CurrentPrice := initialPrice,
    EndTime := endTime, State := pending, LastBidTime := none,
    TimeExtension := timeExtension, CreatedAt := 0, UpdatedAt := 0,
    Bids := [] }

/-- Method `AuctionLot.PlaceBid` from `auction_lot.go` lines 56–128, statement
by statement.  The Go method mutates the receiver and returns
`(*Bid, error)`; here it returns the updated receiver together with the
result.  The minimum-increment validation is present in the source only
as a commented-out block, so `minIncrement` is accepted but never read,
exactly as in the compiled Go code. -/
def AuctionLot.PlaceBid (al : AuctionLot) (userID : Nat) (amount : ℚ)
    (minIncrement : ℚ) (now : Int) (freshId : Nat) :
    AuctionLot × Except DomainError Bid :=
  if al.State ≠ active then
    (al, .error .lotNotActive)
  else if amount ≤ al.CurrentPrice then
    (al, .error .bidAmountTooLow)
  else
    -- time-extension (soft close): `if time.Now().Add(ext).After(al.EndTime)`
    let endTime' : Int :=
      if now + al.TimeExtension > al.EndTime then now + al.TimeExtension
      else al.EndTime
    let newBid := NewBid freshId al.ID userID amount now
    ({ al with
        EndTime := endTime', CurrentPrice := amount,
        LastBidTime := some now, Bids := al.Bids ++ [newBid] },
      .ok newBid)

/-- Method `AuctionLot.Start` from `auction_lot.go` lines 131–149. -/
def AuctionLot.Start (al : AuctionLot) : AuctionLot × Option DomainError :=
  if al.State ≠ pending then (al, some .lotAlreadyStartedOrFinished)
  else ({ al with State := active }, none)

/-- Method `AuctionLot.Finish` from `auction_lot.go` lines 152–169. -/
def AuctionLot.Finish (al : AuctionLot) : AuctionLot × Option DomainError :=
  if al.State ≠ active then (al, some .lotNotActive)
  else ({ al with State := finished }, none)

/-- Method `AuctionLot.Cancel` from `auction_lot.go` lines 172–190. -/
def AuctionLot.Cancel (al : AuctionLot) : AuctionLot × Option DomainError :=
  if al.State = finished ∨ al.State = cancelled then
    (al, some .lotAlreadyFinishedOrCancelled)
  else ({ al with State := cancelled }, none)

/-! ## Bid use case (`internal/auction/application/place_bid.go`) -/

/-- Input DTO `PlaceBidDTO` from `place_bid.go`. -/
structure PlaceBidDTO where
  LotID : Nat
  UserID : Nat
  Amount : ℚ
deriving DecidableEq, Repr

/-- Outcomes of the storage operations performed inside one execution of
the use case.  The database and network are external, so whether each
call succeeds is an input to the model, one flag per call site in
`Execute`. -/
structure StorageFlags where
  beginOk : Bool
  saveBidOk : Bool
  saveLotOk : Bool
  commitOk : Bool
deriving DecidableEq, Repr

/-- Errors returned by `PlaceBidUseCase.Execute` (the Go code wraps the
cause with `fmt.Errorf("...: %w", err)`; the constructors record the
wrapped cause). -/
inductive UCError where
  | invalidAmount
  | beginTxFailed
  | getLotFailed (cause : DomainError)
  | bidFailed (cause : DomainError)
  | saveBidFailed
  | saveLotFailed
deriving DecidableEq, Repr

/-- Observable result of one execution of the use case: the value
returned to the caller, the database rows after the transaction has
committed or rolled back, and the in-memory `AuctionLot` aggregate
object as `Execute` leaves it (`none` when the lot was never loaded). -/
structure ExecResult where
  ret : Except UCError Bid
  dbLot : Option AuctionLot
  dbBids : List Bid
  memLot : Option AuctionLot
deriving Repr

/-- Method `PlaceBidUseCase.Execute` from `place_bid.go` lines 46–166.
`dbLot0` is the `auction_lots` row for `cmd.LotID` (`none` when absent)
and `dbBids0` the `bids` rows; `GetByID` materialises a fresh in-memory
aggregate from the row on every execution.  A failed `Save` or a domain
error makes the deferred function roll the transaction back, so the
database keeps its initial rows.  `Execute` has unnamed result
parameters, so the deferred function's assignment `err = commitErr`
after `return newBid, nil` cannot reach the caller: a failed commit
still returns the bid with a nil error. -/
def PlaceBidUseCase.Execute (flags : StorageFlags) (dbLot0 : Option AuctionLot)
    (dbBids0 : List Bid) (cmd : PlaceBidDTO) (now : Int) (freshId : Nat) :
    ExecResult :=
  if cmd.Amount ≤ 0 then
    ⟨.error .invalidAmount, dbLot0, dbBids0, none⟩
  else if ¬ flags.beginOk then
    ⟨.error .beginTxFailed, dbLot0, dbBids0, none⟩
  else
    match dbLot0 with
    | none => ⟨.error (.getLotFailed .lotNotFound), dbLot0, dbBids0, none⟩
    | some row =>
      -- minIncrement := 0.0 (temporal configuration in the source)
      match row.PlaceBid cmd.UserID cmd.Amount 0 now freshId with
      | (lotAfter, .error e) =>
        ⟨.error (.bidFailed e), dbLot0, dbBids0, some lotAfter⟩
      | (lotAfter, .ok newBid) =>
        if ¬ flags.saveBidOk then
          ⟨.error .saveBidFailed, dbLot0, dbBids0, some lotAfter⟩
        else if ¬ flags.saveLotOk then
          ⟨.error .saveLotFailed, dbLot0, dbBids0, some lotAfter⟩
        else if ¬ flags.commitOk then
          ⟨.ok newBid, dbLot0, dbBids0, some lotAfter⟩
        else
          ⟨.ok newBid, some lotAfter, dbBids0 ++ [newBid], some lotAfter⟩

/-! ## Connection hub (`internal/shared/websocket/hub.go`) -/

/-- A registered connection as the hub sees it: `Client` from `hub.go`
with its buffered outbound channel `Send` modelled as the queued
messages plus the buffer capacity (`make(chan []byte, 256)` in
`httpserver/server.go`), and a flag recording `close(client.Send)`. -/
structure HClient where
  id : Nat
  lotID : Nat
  send : List String
  sendCap : Nat
  closed : Bool
deriving DecidableEq, Repr

/-- Struct `Message` from `hub.go`: a broadcast payload addressed to a lot
group. -/
structure HubMsg where
  lotID : Nat
  data : String
deriving DecidableEq, Repr

/-- Outcome of `select { case client.Send <- data: ... default: ... }`
for one client during a broadcast (`hub.go` lines 137–151): a
non-blocking send on a buffered channel succeeds exactly when the
buffer has room; otherwise the hub closes the channel and deletes the
client from the registry. -/
def Hub.deliver (m : HubMsg) (c : HClient) : Option HClient × Option HClient :=
  if c.lotID = m.lotID then
    if c.send.length < c.sendCap then
      (some { c with send := c.send ++ [m.data] }, none)
    else
      (none, some { c with closed := true })
  else (some c, none)

/-- The `case message := <-h.broadcast` arm of `Hub.Run` (`hub.go`
lines 133–153).  The registry `clients` (a map `lotID → set<Client>`,
flattened here to a list of clients tagged with their lot) is folded
into the surviving registry and the list of evicted clients.  Clients
in other lot groups are never touched by the loop, which ranges only
over `h.clients[message.LotID]`. -/
def Hub.broadcastStep (registry : List HClient) (m : HubMsg) :
    List HClient × List HClient :=
  (registry.filterMap (fun c => (Hub.deliver m c).1),
   registry.filterMap (fun c => (Hub.deliver m c).2))

/-! ## Auction handler (`internal/auction/infra/websocket/handlers.go`) -/

/-- The payload of a parsed `ClientBidMessage` (`messages.go`). -/
structure ClientBidPayload where
  LotID : Nat
  UserID : Nat
  Amount : ℚ
deriving DecidableEq, Repr

/-- The fields of `ServerLotUpdateMessage.Payload` that the handler
copies from the `LotStateDTO` (`handlers.go` lines 91–102). -/
structure LotUpdatePayload where
  LotID : Nat
  CurrentPrice : ℚ
  EndTime : Int
  State : AuctionLotState
deriving DecidableEq, Repr

/-- Observable actions of `handleClientBidMessage`: an error message
sent to one client's outbound queue, an invocation of the bid use
case, or a broadcast to a lot group. -/
inductive HandlerEffect where
  | sendErrorToClient (clientId : Nat) (msg : String)
  | invokePlaceBid (cmd : PlaceBidDTO)
  | broadcastToLot (lotId : Nat) (payload : LotUpdatePayload)
deriving DecidableEq, Repr

/-- Method `AuctionWSHandler.handleClientBidMessage` from `handlers.go` lines
60–112, for an already-parsed `ClientBidMessage`.  The results of the
two application-layer calls (`auctionService.PlaceBid` and
`auctionService.GetLotState`) are external and passed as oracles; they
are consulted only on the paths that reach them.  The client's
subscription `client.LotID` is the string form of a lot UUID, compared
with `bidMsg.Payload.LotID.String()`; the rendering is injective, so
the comparison is modelled on the ids directly. -/
def AuctionWSHandler.handleClientBidMessage
    (clientId clientLotID : Nat) (bidMsg : ClientBidPayload)
    (placeBidResult : Except String Bid)
    (lotStateResult : Except String LotUpdatePayload) : List HandlerEffect :=
  if bidMsg.LotID ≠ clientLotID then
    [.sendErrorToClient clientId "lot ID mismatch"]
  else
    .invokePlaceBid ⟨bidMsg.LotID, bidMsg.UserID, bidMsg.Amount⟩ ::
    match placeBidResult with
    | .error e => [.sendErrorToClient clientId e]
    | .ok _ =>
      match lotStateResult with
      | .error _ => [.sendErrorToClient clientId "failed to get updated lost state"]
      | .ok st => [.broadcastToLot clientLotID st]

/-! ## Timer / reaper -/

/-- The `WHERE state = 'active' AND end_time <= NOW() + threshold`
filter of `AuctionLotRepository.GetLotsEndingSoon`
(`auction_lot_repository.go` lines 142–183). -/
def GetLotsEndingSoon (db : List AuctionLot) (now threshold : Int) :
    List AuctionLot :=
  db.filter (fun l => l.State = active ∧ l.EndTime ≤ now + threshold)

/-- Modelled from the spec: the repository declares
`AuctionLotRepository.GetLotsEndingSoon` and `AuctionLot.Finish` but
contains no reaper task that calls them; the periodic sweep itself is
missing from the source.  One tick is modelled from spec §4.8: list the
lots ending within horizon 0, and for each one call `finish()` under
the lot's guard, persist the new state, and broadcast a terminal
`server_lot_update` to the lot's group.  Returns the persisted rows
and the broadcast messages of the tick. -/
def reaperTick (db : List AuctionLot) (now : Int) :
    List AuctionLot × List HubMsg :=
  (db.map (fun l =>
      if l.State = active ∧ l.EndTime ≤ now then (l.Finish).1 else l),
   (GetLotsEndingSoon db now 0).map (fun l =>
      { lotID := l.ID, data := "server_lot_update:finished" }))

/-! ## Concrete sample data for witnesses and counterexamples -/

/-- An active lot: current price 50, ends at instant 100, soft-close
window 10. -/
def sampleActiveLot : AuctionLot :=
  { ID := 1, Title := "car", Description := "a car",
    InitialPrice := 50, CurrentPrice := 50, EndTime := 100,
    State := active, LastBidTime := none, TimeExtension := 10,
    CreatedAt := 0, UpdatedAt := 0, Bids := [] }

/-- A lot that has already finished. -/
def sampleFinishedLot : AuctionLot :=
  { sampleActiveLot with ID := 2, State := finished }

/-! ## Theorems -/

/-- C10.  Whenever `PlaceBid` returns an error the lot is exactly as it
was before the call: every validation failure returns before any
mutation. -/
theorem placeBid_error_frame (al : AuctionLot) (u : Nat) (a m : ℚ)
    (now : Int) (f : Nat) (e : DomainError)
    (herr : (al.PlaceBid u a m now f).2 = .error e) :
    (al.PlaceBid u a m now f).1 = al := by
  by_cases h1 : al.State ≠ active
  · simp [AuctionLot.PlaceBid, h1]
  · by_cases h2 : a ≤ al.CurrentPrice
    · simp [AuctionLot.PlaceBid, h1, h2]
    · exfalso
      simp [AuctionLot.PlaceBid, h1, h2] at herr

/-- Witness for `placeBid_error_frame`: a bid of 40 on the sample lot
(current price 50) fails, and the lot is returned unchanged. -/
theorem placeBid_error_frame_witness :
    (sampleActiveLot.PlaceBid 7 40 0 60 99).1 = sampleActiveLot :=
  placeBid_error_frame sampleActiveLot 7 40 0 60 99
    DomainError.bidAmountTooLow (by decide)

/-- C6.  On an active lot a bid succeeds exactly when the amount is
strictly above the current price: a bid equal to `CurrentPrice` is
rejected with `bidAmountTooLow` and leaves the lot unchanged, while a
strictly greater bid updates `CurrentPrice` to the amount, sets
`LastBidTime` to the bid instant, appends the new bid, and returns a
bid carrying the lot's id, the given user id, the given amount, and the
freshly generated id. -/
theorem placeBid_success_effects (al : AuctionLot) (u : Nat) (a m : ℚ)
    (now : Int) (f : Nat) (hact : al.State = active) :
    (a ≤ al.CurrentPrice →
      al.PlaceBid u a m now f = (al, .error .bidAmountTooLow)) ∧
    (al.CurrentPrice < a →
      al.PlaceBid u a m now f =
        ({ al with
            EndTime := if now + al.TimeExtension > al.EndTime then
              now + al.TimeExtension else al.EndTime,
            CurrentPrice := a, LastBidTime := some now,
            Bids := al.Bids ++ [NewBid f al.ID u a now] },
          .ok (NewBid f al.ID u a now))) := by
  unfold AuctionLot.PlaceBid
  constructor
  · intro hle
    rw [if_neg (by simp [hact]), if_pos hle]
  · intro hlt
    rw [if_neg (by simp [hact]), if_neg (not_le.mpr hlt)]

/-- Witness for `placeBid_success_effects`: on the sample lot a bid of
exactly 50 is rejected as too low, and a bid of 60 at instant 95 is
accepted, setting the price to 60 and soft-closing to 105. -/
theorem placeBid_success_effects_witness :
    sampleActiveLot.PlaceBid 7 50 0 95 99 =
      (sampleActiveLot, .error .bidAmountTooLow) ∧
    sampleActiveLot.PlaceBid 7 60 0 95 99 =
      ({ sampleActiveLot with
          EndTime := 105, CurrentPrice := 60, LastBidTime := some 95,
          Bids := [NewBid 99 1 7 60 95] },
        .ok (NewBid 99 1 7 60 95)) := by
  refine ⟨(placeBid_success_effects sampleActiveLot 7 50 0 95 99 rfl).1 (by decide),
    ((placeBid_success_effects sampleActiveLot 7 60 0 95 99 rfl).2 (by decide)).trans
      (by decide)⟩

/-- C5.  For every accepted bid at instant `now`: when
`now + timeExtension` is after the old `endTime` the new `endTime`
equals `now + timeExtension`, and otherwise `endTime` is unchanged. -/
theorem placeBid_soft_close (al lot' : AuctionLot) (u : Nat) (a m : ℚ)
    (now : Int) (f : Nat) (bid : Bid)
    (hok : al.PlaceBid u a m now f = (lot', .ok bid)) :
    (al.EndTime < now + al.TimeExtension →
      lot'.EndTime = now + al.TimeExtension) ∧
    (¬ al.EndTime < now + al.TimeExtension →
      lot'.EndTime = al.EndTime) := by
  unfold AuctionLot.PlaceBid at hok
  split at hok
  · simp at hok
  · split at hok
    · simp at hok
    · refine ⟨fun hext => ?_, fun hnoext => ?_⟩
      · have := congrArg Prod.fst hok
        simp only at this
        rw [← this]
        simp [if_pos hext]
      · have := congrArg Prod.fst hok
        simp only at this
        rw [← this]
        simp [if_neg hnoext]

/-- Witness for `placeBid_soft_close`: the accepted bid at instant 95
with extension 10 beats `endTime = 100`, so the new `endTime` is 105. -/
theorem placeBid_soft_close_witness :
    ((sampleActiveLot.PlaceBid 7 60 0 95 99).1).EndTime = 95 + 10 := by
  have h := placeBid_soft_close sampleActiveLot
    (sampleActiveLot.PlaceBid 7 60 0 95 99).1 7 60 0 95 99
    (NewBid 99 1 7 60 95) (by decide)
  exact h.1 (by decide)

/-- Helper: on an active lot any amount strictly above the current
price is accepted, whatever `minIncrement` and `now` are; the updated
lot and the returned bid are as in the success branch of `PlaceBid`. -/
theorem placeBid_accept_eq (al : AuctionLot) (u : Nat) (a m : ℚ)
    (now : Int) (f : Nat) (hact : al.State = active)
    (hlt : al.CurrentPrice < a) :
    al.PlaceBid u a m now f =
      ({ al with
          EndTime := if now + al.TimeExtension > al.EndTime then
            now + al.TimeExtension else al.EndTime,
          CurrentPrice := a, LastBidTime := some now,
          Bids := al.Bids ++ [NewBid f al.ID u a now] },
        .ok (NewBid f al.ID u a now)) := by
  unfold AuctionLot.PlaceBid
  rw [if_neg (by simp [hact]), if_neg (not_le.mpr hlt)]

/-- C1 counterexample.  The sample lot is active with `EndTime = 100`;
at instant 200 (past the deadline) a bid of 60 is *accepted* — there is
no deadline check and no `LotFinished` error in the code — and the lot
is modified (price and `EndTime` both change). -/
theorem placeBid_after_deadline_cex :
    sampleActiveLot.State = active ∧
    sampleActiveLot.EndTime ≤ 200 ∧
    (sampleActiveLot.PlaceBid 7 60 0 200 99).2 = .ok (NewBid 99 1 7 60 200) ∧
    (sampleActiveLot.PlaceBid 7 60 0 200 99).1 ≠ sampleActiveLot ∧
    ((sampleActiveLot.PlaceBid 7 60 0 200 99).1).EndTime = 210 := by
  decide

/-- C1 amended.  `PlaceBid` performs no deadline check: on an active
lot, a bid placed at `now ≥ endTime` whose amount is strictly above the
current price is accepted, and the lot is modified
(`CurrentPrice = amount`); the only preconditions checked are the state
check followed by the amount check. -/
theorem placeBid_no_deadline_check (al : AuctionLot) (u : Nat) (a m : ℚ)
    (now : Int) (f : Nat) (hact : al.State = active)
    (hpast : al.EndTime ≤ now) (hamt : al.CurrentPrice < a) :
    (al.PlaceBid u a m now f).2 = .ok (NewBid f al.ID u a now) ∧
    ((al.PlaceBid u a m now f).1).CurrentPrice = a := by
  rw [placeBid_accept_eq al u a m now f hact hamt]
  exact ⟨rfl, rfl⟩

/-- Witness for `placeBid_no_deadline_check` at the concrete
post-deadline input of the counterexample. -/
theorem placeBid_no_deadline_check_witness :
    (sampleActiveLot.PlaceBid 7 60 0 200 99).2 = .ok (NewBid 99 1 7 60 200) ∧
    ((sampleActiveLot.PlaceBid 7 60 0 200 99).1).CurrentPrice = 60 :=
  placeBid_no_deadline_check sampleActiveLot 7 60 0 200 99
    (by decide) (by decide) (by decide)

/-- C2 counterexample.  With `minIncrement = 10` on the sample active
lot (current price 50), the bid 55 satisfies
`CurrentPrice < 55 < CurrentPrice + minIncrement`, yet it is accepted:
the increment validation exists in the source only as a commented-out
block and `ErrBidIncrementTooSmall` is never returned. -/
theorem placeBid_increment_ignored_cex :
    (0 : ℚ) < 10 ∧
    sampleActiveLot.State = active ∧
    sampleActiveLot.CurrentPrice < 55 ∧
    (55 : ℚ) < sampleActiveLot.CurrentPrice + 10 ∧
    (sampleActiveLot.PlaceBid 7 55 10 60 99).2 = .ok (NewBid 99 1 7 55 60) ∧
    (sampleActiveLot.PlaceBid 7 55 10 60 99).1 ≠ sampleActiveLot :=
  ⟨by norm_num, by decide, by decide, by norm_num [sampleActiveLot],
    by decide, by decide⟩

/-- C2 amended.  The `minIncrement` parameter is not enforced (the
check is commented out in the source, and the use case always passes
`0.0`): on an active lot any bid with `amount > currentPrice` is
accepted even when `amount < currentPrice + minIncrement`, and the
result of `PlaceBid` does not depend on `minIncrement` at all. -/
theorem placeBid_increment_not_enforced (al : AuctionLot) (u : Nat)
    (a minInc : ℚ) (now : Int) (f : Nat) (hpos : 0 < minInc)
    (hact : al.State = active) (hgt : al.CurrentPrice < a)
    (hsmall : a < al.CurrentPrice + minInc) :
    (al.PlaceBid u a minInc now f).2 = .ok (NewBid f al.ID u a now) ∧
    al.PlaceBid u a minInc now f = al.PlaceBid u a 0 now f := by
  rw [placeBid_accept_eq al u a minInc now f hact hgt,
    placeBid_accept_eq al u a 0 now f hact hgt]
  exact ⟨rfl, rfl⟩

/-- Witness for `placeBid_increment_not_enforced` at the concrete
input of the counterexample. -/
theorem placeBid_increment_not_enforced_witness :
    (sampleActiveLot.PlaceBid 7 55 10 60 99).2 = .ok (NewBid 99 1 7 55 60) ∧
    sampleActiveLot.PlaceBid 7 55 10 60 99 =
      sampleActiveLot.PlaceBid 7 55 0 60 99 :=
  placeBid_increment_not_enforced sampleActiveLot 7 55 10 60 99
    (by decide) (by decide) (by decide) (by norm_num [sampleActiveLot])

/-- C7.  The lot state machine: `Start` moves `pending` to `active` and
errors with `lotAlreadyStartedOrFinished` from any other state;
`Finish` moves `active` to `finished` and errors with `lotNotActive`
otherwise; `Cancel` moves `pending` or `active` to `cancelled` and
errors with `lotAlreadyFinishedOrCancelled` from a terminal state;
`PlaceBid` never changes the state; and once a lot is `finished` or
`cancelled` no operation changes it at all. -/
theorem lot_state_machine (al : AuctionLot) :
    (al.Start = if al.State = pending then ({ al with State := active }, none)
      else (al, some .lotAlreadyStartedOrFinished)) ∧
    (al.Finish = if al.State = active then ({ al with State := finished }, none)
      else (al, some .lotNotActive)) ∧
    (al.Cancel = if al.State = finished ∨ al.State = cancelled then
        (al, some .lotAlreadyFinishedOrCancelled)
      else ({ al with State := cancelled }, none)) ∧
    (∀ u a m now f, ((al.PlaceBid u a m now f).1).State = al.State) ∧
    (al.State = finished ∨ al.State = cancelled →
      al.Start = (al, some .lotAlreadyStartedOrFinished) ∧
      al.Finish = (al, some .lotNotActive) ∧
      al.Cancel = (al, some .lotAlreadyFinishedOrCancelled) ∧
      ∀ u a m now f, (al.PlaceBid u a m now f).1 = al) := by
  have hstart : al.Start = if al.State = pending then
      ({ al with State := active }, none)
      else (al, some .lotAlreadyStartedOrFinished) := by
    unfold AuctionLot.Start
    by_cases h : al.State = pending <;> simp [h]
  have hfinish : al.Finish = if al.State = active then
      ({ al with State := finished }, none)
      else (al, some .lotNotActive) := by
    unfold AuctionLot.Finish
    by_cases h : al.State = active <;> simp [h]
  have hplace : ∀ (u : Nat) (a m : ℚ) (now : Int) (f : Nat),
      ((al.PlaceBid u a m now f).1).State = al.State := by
    intro u a m now f
    by_cases h1 : al.State ≠ active
    · simp [AuctionLot.PlaceBid, h1]
    · by_cases h2 : a ≤ al.CurrentPrice
      · simp [AuctionLot.PlaceBid, h1, h2]
      · simp [AuctionLot.PlaceBid, h1, h2]
  refine ⟨hstart, hfinish, rfl, hplace, fun hterm => ?_⟩
  have hnp : al.State ≠ pending := by rcases hterm with h | h <;> simp [h]
  have hna : al.State ≠ active := by rcases hterm with h | h <;> simp [h]
  refine ⟨by rw [hstart, if_neg hnp], by rw [hfinish, if_neg hna],
    by unfold AuctionLot.Cancel; rw [if_pos hterm], fun u a m now f => ?_⟩
  simp [AuctionLot.PlaceBid, hna]

/-- Witness for `lot_state_machine` at the finished sample lot: every
operation leaves it untouched and errors as specified. -/
theorem lot_state_machine_witness :
    sampleFinishedLot.Start =
      (sampleFinishedLot, some .lotAlreadyStartedOrFinished) ∧
    sampleFinishedLot.Finish = (sampleFinishedLot, some .lotNotActive) ∧
    sampleFinishedLot.Cancel =
      (sampleFinishedLot, some .lotAlreadyFinishedOrCancelled) ∧
    (sampleFinishedLot.PlaceBid 7 60 0 95 99).1 = sampleFinishedLot := by
  have h := (lot_state_machine sampleFinishedLot).2.2.2.2 (Or.inl rfl)
  exact ⟨h.1, h.2.1, h.2.2.1, h.2.2.2 7 60 0 95 99⟩

/-- Helper: when the input amount is positive, the transaction starts,
the lot row exists, and the domain decision accepts, `Execute` reduces
to the storage-outcome case split: any failed save rolls the database
back but keeps the post-decision aggregate in memory, and a failed
commit also keeps the database rows while still returning the bid. -/
theorem execute_eq_of_placeBid_ok (flags : StorageFlags) (row : AuctionLot)
    (dbBids0 : List Bid) (cmd : PlaceBidDTO) (now : Int) (f : Nat)
    (lot' : AuctionLot) (bid : Bid)
    (hamt : 0 < cmd.Amount) (hbegin : flags.beginOk = true)
    (hok : row.PlaceBid cmd.UserID cmd.Amount 0 now f = (lot', .ok bid)) :
    PlaceBidUseCase.Execute flags (some row) dbBids0 cmd now f =
      if ¬ flags.saveBidOk then
        ⟨.error .saveBidFailed, some row, dbBids0, some lot'⟩
      else if ¬ flags.saveLotOk then
        ⟨.error .saveLotFailed, some row, dbBids0, some lot'⟩
      else if ¬ flags.commitOk then
        ⟨.ok bid, some row, dbBids0, some lot'⟩
      else
        ⟨.ok bid, some lot', dbBids0 ++ [bid], some lot'⟩ := by
  unfold PlaceBidUseCase.Execute
  rw [if_neg (not_le.mpr hamt), if_neg (by simp [hbegin])]
  simp only [hok]

/-- C3 counterexample.  A bid of 60 on the sample lot (price 50) passes
the domain decision, then the bid insert fails: `Execute` returns an
error and the database keeps its old rows, but the in-memory aggregate
is left with the *post-decision* price 60, not its pre-decision value
50 — nothing rolls the aggregate object back. -/
theorem execute_failed_save_keeps_mutation_cex :
    (PlaceBidUseCase.Execute ⟨true, false, true, true⟩ (some sampleActiveLot)
        [] ⟨1, 7, 60⟩ 95 99).ret = .error .saveBidFailed ∧
    (PlaceBidUseCase.Execute ⟨true, false, true, true⟩ (some sampleActiveLot)
        [] ⟨1, 7, 60⟩ 95 99).dbLot = some sampleActiveLot ∧
    ((PlaceBidUseCase.Execute ⟨true, false, true, true⟩ (some sampleActiveLot)
        [] ⟨1, 7, 60⟩ 95 99).memLot.map AuctionLot.CurrentPrice) = some 60 ∧
    sampleActiveLot.CurrentPrice = 50 := by
  decide

/-- C3 amended.  When the domain decision succeeds and a later storage
write fails, `Execute` returns an error and the transaction rollback
leaves the database rows unchanged, but the in-memory aggregate keeps
its post-decision values (it is discarded and reloaded from storage on
the next execution, not rolled back).  When the commit itself fails the
database rows are likewise unchanged and the aggregate keeps its
post-decision values, and — because `Execute` has unnamed result
parameters — the commit error is not even surfaced: the bid is returned
with a nil error. -/
theorem execute_storage_failure_semantics (flags : StorageFlags)
    (row : AuctionLot) (dbBids0 : List Bid) (cmd : PlaceBidDTO) (now : Int)
    (f : Nat) (lot' : AuctionLot) (bid : Bid)
    (hamt : 0 < cmd.Amount) (hbegin : flags.beginOk = true)
    (hok : row.PlaceBid cmd.UserID cmd.Amount 0 now f = (lot', .ok bid)) :
    (flags.saveBidOk = false →
      PlaceBidUseCase.Execute flags (some row) dbBids0 cmd now f =
        ⟨.error .saveBidFailed, some row, dbBids0, some lot'⟩) ∧
    (flags.saveBidOk = true → flags.saveLotOk = false →
      PlaceBidUseCase.Execute flags (some row) dbBids0 cmd now f =
        ⟨.error .saveLotFailed, some row, dbBids0, some lot'⟩) ∧
    (flags.saveBidOk = true → flags.saveLotOk = true → flags.commitOk = false →
      PlaceBidUseCase.Execute flags (some row) dbBids0 cmd now f =
        ⟨.ok bid, some row, dbBids0, some lot'⟩) := by
  rw [execute_eq_of_placeBid_ok flags row dbBids0 cmd now f lot' bid
    hamt hbegin hok]
  refine ⟨fun h1 => ?_, fun h1 h2 => ?_, fun h1 h2 h3 => ?_⟩ <;>
    simp [h1, *]

/-- Witness for `execute_storage_failure_semantics` at the concrete
input of the counterexample (failed bid insert). -/
theorem execute_storage_failure_semantics_witness :
    PlaceBidUseCase.Execute ⟨true, false, true, true⟩ (some sampleActiveLot)
        [] ⟨1, 7, 60⟩ 95 99 =
      ⟨.error .saveBidFailed, some sampleActiveLot, [],
        some { sampleActiveLot with
          EndTime := 105, CurrentPrice := 60, LastBidTime := some 95,
          Bids := [NewBid 99 1 7 60 95] }⟩ :=
  (execute_storage_failure_semantics ⟨true, false, true, true⟩
    sampleActiveLot [] ⟨1, 7, 60⟩ 95 99
    { sampleActiveLot with
        EndTime := 105, CurrentPrice := 60, LastBidTime := some 95,
        Bids := [NewBid 99 1 7 60 95] }
    (NewBid 99 1 7 60 95)
    (by decide) rfl (by decide)).1 rfl

/-- C8.  On a `client_bid` whose payload lot id differs from the lot
the connection is subscribed to, the handler emits exactly one effect —
a `server_error` to the originating client — and in particular never
invokes the bid use case and never broadcasts to any lot group. -/
theorem handler_lot_mismatch (cid clid : Nat) (bidMsg : ClientBidPayload)
    (r1 : Except String Bid) (r2 : Except String LotUpdatePayload)
    (hmm : bidMsg.LotID ≠ clid) :
    AuctionWSHandler.handleClientBidMessage cid clid bidMsg r1 r2 =
      [.sendErrorToClient cid "lot ID mismatch"] ∧
    (∀ cmd, HandlerEffect.invokePlaceBid cmd ∉
      AuctionWSHandler.handleClientBidMessage cid clid bidMsg r1 r2) ∧
    (∀ l p, HandlerEffect.broadcastToLot l p ∉
      AuctionWSHandler.handleClientBidMessage cid clid bidMsg r1 r2) := by
  have he : AuctionWSHandler.handleClientBidMessage cid clid bidMsg r1 r2 =
      [.sendErrorToClient cid "lot ID mismatch"] := by
    unfold AuctionWSHandler.handleClientBidMessage
    rw [if_pos hmm]
  exact ⟨he, fun cmd => by simp [he], fun l p => by simp [he]⟩

/-- Witness for `handler_lot_mismatch`: a client subscribed to lot 1
sends a bid for lot 2. -/
theorem handler_lot_mismatch_witness :
    AuctionWSHandler.handleClientBidMessage 5 1 ⟨2, 7, 60⟩
        (.error "any") (.error "any") =
      [.sendErrorToClient 5 "lot ID mismatch"] :=
  (handler_lot_mismatch 5 1 ⟨2, 7, 60⟩ (.error "any") (.error "any")
    (by decide)).1

/-- Helper: a client surviving a broadcast delivery keeps its id. -/
theorem Hub.deliver_fst_id (m : HubMsg) (c k : HClient)
    (h : (Hub.deliver m c).1 = some k) : k.id = c.id := by
  unfold Hub.deliver at h
  by_cases h1 : c.lotID = m.lotID
  · rw [if_pos h1] at h
    by_cases h2 : c.send.length < c.sendCap
    · rw [if_pos h2] at h
      simp only [Option.some.injEq] at h
      rw [← h]
    · rw [if_neg h2] at h
      simp at h
  · rw [if_neg h1] at h
    simp only [Option.some.injEq] at h
    rw [← h]

/-- C9.  When the hub processes a broadcast for a lot, every registered
client of that lot either gets the message enqueued (queue has room) or
is evicted from the registry with its queue closed (queue full), while
clients of other lots survive unchanged; a full client's id no longer
appears in the surviving registry (registry entries are distinct
connections, modelled by pairwise-distinct ids). -/
theorem hub_broadcast_policy (registry : List HClient) (m : HubMsg)
    (c : HClient) (hc : c ∈ registry) :
    (c.lotID = m.lotID → c.send.length < c.sendCap →
      { c with send := c.send ++ [m.data] } ∈ (Hub.broadcastStep registry m).1) ∧
    (c.lotID = m.lotID → ¬ c.send.length < c.sendCap →
      ({ c with closed := true } ∈ (Hub.broadcastStep registry m).2 ∧
        ((registry.map HClient.id).Nodup →
          ∀ k ∈ (Hub.broadcastStep registry m).1, k.id ≠ c.id))) ∧
    (c.lotID ≠ m.lotID → c ∈ (Hub.broadcastStep registry m).1) := by
  refine ⟨fun h1 h2 => ?_, fun h1 h2 => ⟨?_, fun hnd k hk => ?_⟩,
    fun h1 => ?_⟩
  · exact List.mem_filterMap.mpr ⟨c, hc, by simp [Hub.deliver, h1, h2]⟩
  · exact List.mem_filterMap.mpr ⟨c, hc, by simp [Hub.deliver, h1, h2]⟩
  · intro hkc
    obtain ⟨c', hc', hdel⟩ := List.mem_filterMap.mp hk
    have hid : c'.id = c.id := (Hub.deliver_fst_id m c' k hdel) ▸ hkc
    have hcc : c' = c := List.inj_on_of_nodup_map hnd hc' hc hid
    rw [hcc] at hdel
    rw [show (Hub.deliver m c).1 = none by
      simp [Hub.deliver, h1, h2]] at hdel
    exact Option.noConfusion hdel
  · exact List.mem_filterMap.mpr ⟨c, hc, by simp [Hub.deliver, h1]⟩

/-- A sample registry for the hub witness: client 10 subscribes to
lot 1 with room in its queue, client 11 subscribes to lot 1 with a full
queue, client 12 subscribes to lot 2. -/
def sampleRegistry : List HClient :=
  [⟨10, 1, [], 2, false⟩, ⟨11, 1, ["a", "b"], 2, false⟩,
   ⟨12, 2, [], 2, false⟩]

/-- Witness for `hub_broadcast_policy`: broadcasting to lot 1 over the
sample registry enqueues to client 10, evicts the full client 11 with
its queue closed, and leaves the lot-2 client 12 untouched. -/
theorem hub_broadcast_policy_witness :
    (⟨10, 1, ["x"], 2, false⟩ : HClient) ∈
      (Hub.broadcastStep sampleRegistry ⟨1, "x"⟩).1 ∧
    (⟨11, 1, ["a", "b"], 2, true⟩ : HClient) ∈
      (Hub.broadcastStep sampleRegistry ⟨1, "x"⟩).2 ∧
    (⟨12, 2, [], 2, false⟩ : HClient) ∈
      (Hub.broadcastStep sampleRegistry ⟨1, "x"⟩).1 :=
  ⟨(hub_broadcast_policy sampleRegistry ⟨1, "x"⟩ ⟨10, 1, [], 2, false⟩
      (by decide)).1 rfl (by decide),
   ((hub_broadcast_policy sampleRegistry ⟨1, "x"⟩ ⟨11, 1, ["a", "b"], 2, false⟩
      (by decide)).2.1 rfl (by decide)).1,
   (hub_broadcast_policy sampleRegistry ⟨1, "x"⟩ ⟨12, 2, [], 2, false⟩
      (by decide)).2.2 (by decide)⟩

/-- C4 (reaper modelled from the spec).  In one tick at instant `now`,
every lot that is `active` with `endTime ≤ now` is transitioned to
`finished` via `Finish` and appears finished among the persisted rows,
and a terminal lot-update broadcast for its lot group is emitted; a lot
that is already `finished` is skipped: it stays untouched and (with
distinct lot ids) no broadcast targets it. -/
theorem reaperTick_finalizes_due_lots (db : List AuctionLot) (now : Int)
    (lot : AuctionLot) (hmem : lot ∈ db) :
    (lot.State = active → lot.EndTime ≤ now →
      ({ lot with State := finished } ∈ (reaperTick db now).1 ∧
        (⟨lot.ID, "server_lot_update:finished"⟩ : HubMsg) ∈
          (reaperTick db now).2)) ∧
    (lot.State = finished →
      (lot ∈ (reaperTick db now).1 ∧
        ((db.map AuctionLot.ID).Nodup →
          ∀ msg ∈ (reaperTick db now).2, msg.lotID ≠ lot.ID))) := by
  constructor
  · intro hact hend
    constructor
    · refine List.mem_map.mpr ⟨lot, hmem, ?_⟩
      rw [if_pos ⟨hact, hend⟩]
      unfold AuctionLot.Finish
      rw [if_neg (by simp [hact])]
    · refine List.mem_map.mpr ⟨lot, ?_, rfl⟩
      exact List.mem_filter.mpr ⟨hmem, by simp [hact, hend]⟩
  · intro hfin
    constructor
    · refine List.mem_map.mpr ⟨lot, hmem, ?_⟩
      rw [if_neg (by simp [hfin])]
    · intro hnd msg hmsg hcontra
      obtain ⟨l', hl', heq⟩ := List.mem_map.mp hmsg
      have hl'mem : l' ∈ db := (List.mem_filter.mp hl').1
      have hl'act : l'.State = active ∧ l'.EndTime ≤ now + 0 := by
        have := (List.mem_filter.mp hl').2
        simpa [GetLotsEndingSoon] using this
      have hid : l'.ID = lot.ID := by rw [← heq] at hcontra; exact hcontra
      have : l' = lot := List.inj_on_of_nodup_map hnd hl'mem hmem hid
      rw [this] at hl'act
      rw [hfin] at hl'act
      exact absurd hl'act.1 (by simp)

/-- Witness for `reaperTick_finalizes_due_lots`: at instant 150 the
sample active lot (ends at 100) is finalised and broadcast, and the
already-finished sample lot is left untouched. -/
theorem reaperTick_finalizes_due_lots_witness :
    ({ sampleActiveLot with State := finished } ∈
      (reaperTick [sampleActiveLot, sampleFinishedLot] 150).1 ∧
      (⟨1, "server_lot_update:finished"⟩ : HubMsg) ∈
        (reaperTick [sampleActiveLot, sampleFinishedLot] 150).2) ∧
    sampleFinishedLot ∈ (reaperTick [sampleActiveLot, sampleFinishedLot] 150).1 :=
  ⟨(reaperTick_finalizes_due_lots [sampleActiveLot, sampleFinishedLot] 150
      sampleActiveLot (by decide)).1 rfl (by decide),
   ((reaperTick_finalizes_due_lots [sampleActiveLot, sampleFinishedLot] 150
      sampleFinishedLot (by decide)).2 rfl).1⟩
